import Mathlib

/-!
# Verification of the PRD multi-agent review pipeline

Shallow embedding of the PRD-review pipeline (persona synthesis, review
fan-out, sentiment routing, debate facilitation, insight aggregation and the
streaming event protocol) from:

* `api_server.py` — the streaming SSE path (`stream_prd_review`) and the
  non-streaming endpoint;
* `demo2_multi_agent/langgraph_workflow.py` — the batch LangGraph workflow
  (`phase1_reviews_node`, `should_debate`, `aggregation_node`);
* `demo2_multi_agent/persona_scaling.py` — persona variation selection and
  batch persona scaling.

External oracle calls (`b.GeneratePersona`, `b.ReviewPRD`,
`b.FacilitateDebate`, `b.AggregateReviews`) are modelled as explicit
`Except String _`-valued parameters: an `Except.error msg` models the call
raising a Python exception with message `msg`.  Python floats in the
sentiment percentages are modelled as exact rationals; an unguarded
division whose denominator may be zero is modelled with `Option`
(`none` = `ZeroDivisionError`).  JSON serialisation of oracle inputs is
elided: oracles receive the structured values the code would serialise.
-/

namespace PRD

/-- `UserPersona` from `baml_client.types`, fields as used by the pipeline. -/
structure Persona where
  name : String
  age : Nat
  occupation : String
  tech_comfort : String
  income_level : String
  pain_points : List String
  goals : List String
  preferred_channels : List String
  quote : String
  deriving DecidableEq, Repr

/-- `PRDReview` from `baml_client.types`, fields as used by the pipeline. -/
structure Review where
  reviewer_name : String
  reviewer_segment : String
  overall_sentiment : String
  willingness_to_adopt : Nat
  key_concerns : List String
  missing_features : List String
  what_they_loved : List String
  dealbreakers : List String
  reasoning : String
  persona_quote : String
  deriving DecidableEq, Repr

/-- `DebateSession` from `baml_client.types`, fields as used by the pipeline. -/
structure DebateSession where
  topic : String
  participants : List String
  key_insight : String
  deriving DecidableEq, Repr

/-- Sentiment breakdown inside `AggregatedInsights`. -/
structure SentimentBreakdown where
  positive : Nat
  neutral : Nat
  negative : Nat
  total : Nat
  deriving DecidableEq, Repr

/-- `AggregatedInsights` from `baml_client.types`, fields as used here. -/
structure AggregatedInsights where
  total_reviews : Nat
  sentiment_breakdown : SentimentBreakdown
  risk_score : ℚ
  executive_summary : String
  deriving DecidableEq, Repr

/-- `segment['demographic']` of a demographic segment dict. -/
structure Demographic where
  age_range : String
  income_level : String
  family_status : String
  employment : String
  deriving DecidableEq, Repr

/-- `segment['behavioral']` of a demographic segment dict. -/
structure Behavioral where
  tech_savviness : String
  time_constraints : String
  budget_sensitivity : String
  feature_priorities : List String
  deriving DecidableEq, Repr

/-- One demographic segment dict (catalog entry or synthesized custom one). -/
structure Segment where
  segment_id : String
  demographic : Demographic
  behavioral : Behavioral
  custom_name : Option String := none
  custom_description : Option String := none
  deriving DecidableEq, Repr

/-- `SegmentConfig` pydantic model in `api_server.py` (count is validated
`ge=0, le=100`, hence `Nat`). -/
structure SegmentConfig where
  segment_id : String
  count : Nat
  custom_name : Option String := none
  custom_description : Option String := none
  deriving DecidableEq, Repr

/-- Arguments of the `b.ReviewPRD` oracle call. -/
structure ReviewArgs where
  persona_name : String
  persona_age : Nat
  persona_occupation : String
  persona_tech_comfort : String
  persona_pain_points : List String
  persona_goals : List String
  persona_segment : String
  prd_content : String
  deriving DecidableEq, Repr

/-- The external BAML oracle capability: each call either returns a
schema-valid record (`Except.ok`) or raises an exception whose message is
the `Except.error` payload. -/
structure Oracles where
  generatePersona : String → Except String Persona
  reviewPRD : ReviewArgs → Except String Review
  facilitateDebate : String → String → List Review → Except String DebateSession
  aggregateReviews : List Review → List DebateSession → Nat → Except String AggregatedInsights

/-! ## Sentiment computation and debate routing -/

/-- `negative_count` in `stream_prd_review` / `phase1_reviews_node`. -/
def negativeCount (reviews : List Review) : Nat :=
  (reviews.filter (fun r => r.overall_sentiment == "negative")).length

/-- `neutral_count` in `stream_prd_review`. -/
def neutralCount (reviews : List Review) : Nat :=
  (reviews.filter (fun r => r.overall_sentiment == "neutral")).length

/-- `concerning_count = negative_count + neutral_count` in `stream_prd_review`. -/
def concerningCount (reviews : List Review) : Nat :=
  negativeCount reviews + neutralCount reviews

/-- `negative_sentiment_pct = (negative_count / len(reviews) * 100) if reviews
else 0` — streaming path, guarded against the empty list. -/
def negativeSentimentPct (reviews : List Review) : ℚ :=
  if reviews = [] then 0
  else (negativeCount reviews : ℚ) / (reviews.length : ℚ) * 100

/-- `concerning_sentiment_pct = (concerning_count / len(reviews) * 100) if
reviews else 0` — streaming path, guarded against the empty list. -/
def concerningSentimentPct (reviews : List Review) : ℚ :=
  if reviews = [] then 0
  else (concerningCount reviews : ℚ) / (reviews.length : ℚ) * 100

/-- `negative_pct = (negative_count / len(reviews)) * 100` in
`phase1_reviews_node` — the batch path divides WITHOUT a guard, so the
empty review list raises `ZeroDivisionError`, modelled as `none`. -/
def phase1NegativePct (reviews : List Review) : Option ℚ :=
  if reviews.length = 0 then none
  else some (((negativeCount reviews : ℚ) / (reviews.length : ℚ)) * 100)

/-- The streaming debate condition `concerning_sentiment_pct > 20` in
`stream_prd_review`. -/
def streamDebateRuns (reviews : List Review) : Bool :=
  decide (concerningSentimentPct reviews > 20)

/-- `threshold = 30.0` in `should_debate`. -/
def batchDebateThreshold : ℚ := 30

/-- The `should_debate` conditional-edge router in `langgraph_workflow.py`:
returns the string label `"debate"` iff `negative_pct > 30.0`. -/
def should_debate (negative_pct : ℚ) : String :=
  if negative_pct > batchDebateThreshold then "debate" else "skip_debate"

/-! ## Persona variation selection (`persona_scaling.py`) -/

/-- The fixed `VARIATION_PROMPTS` pool in `persona_scaling.py`. -/
def VARIATION_PROMPTS : List String :=
  ["Create a unique individual with distinct personality traits.",
   "Make this person have different priorities than typical segment members.",
   "Give this person some contrarian views or unusual preferences.",
   "Create someone at the younger end of this segment's age range.",
   "Create someone at the older end of this segment's age range.",
   "Make this person particularly tech-savvy for their segment.",
   "Make this person less tech-comfortable than average for their segment.",
   "Create someone with additional accessibility needs.",
   "Make this person have unique cultural or lifestyle preferences.",
   "Create someone who is skeptical of new technology."]

/-- `variation_prompt = VARIATION_PROMPTS[variation_index % len(VARIATION_PROMPTS)]`
in `generate_persona_variation`. -/
def variationPrompt (variation_index : Nat) : String :=
  VARIATION_PROMPTS[variation_index % VARIATION_PROMPTS.length]!

/-- The `segment_data` prompt string built by `generate_persona_variation`:
segment attributes followed by the variation instruction. -/
def segmentData (segment : Segment) (variation_index : Nat) : String :=
  "Segment: " ++ segment.segment_id ++ "\n\nDemographics:\n- Age range: "
    ++ segment.demographic.age_range ++ "\n- Income: "
    ++ segment.demographic.income_level ++ "\n- Family: "
    ++ segment.demographic.family_status ++ "\n- Employment: "
    ++ segment.demographic.employment ++ "\n\nBehavioral traits:\n- Tech savviness: "
    ++ segment.behavioral.tech_savviness ++ "\n- Time constraints: "
    ++ segment.behavioral.time_constraints ++ "\n- Budget sensitivity: "
    ++ segment.behavioral.budget_sensitivity ++ "\n- Priorities: "
    ++ String.intercalate ", " segment.behavioral.feature_priorities
    ++ "\n\nVARIATION INSTRUCTION: " ++ variationPrompt variation_index ++ "\n"

/-- `generate_persona_variation(segment, variation_index)`: builds the
`segment_data` prompt and calls `b.GeneratePersona`. -/
def generate_persona_variation (o : Oracles) (segment : Segment)
    (variation_index : Nat) : Except String Persona :=
  o.generatePersona (segmentData segment variation_index)

/-! ## Python dict as an insertion-ordered association list -/

/-- `d[k] = v` on a Python dict: replaces the value in place if the key is
present (keeping its original position), else appends the key at the end. -/
def dictInsert {α : Type} (k : String) (v : α) :
    List (String × α) → List (String × α)
  | [] => [(k, v)]
  | (k', v') :: rest =>
      if k' = k then (k, v) :: rest else (k', v') :: dictInsert k v rest

/-- `d.get(k, dflt)` on a Python dict: the value at the first (hence, keys
being unique, the only) occurrence of the key, else the default. -/
def dictGetD {α : Type} (d : List (String × α)) (k : String) (dflt : α) : α :=
  match d with
  | [] => dflt
  | kv :: rest => if kv.1 = k then kv.2 else dictGetD rest k dflt

/-- `s.startswith(pre)` on Python strings (modelled over the character
list, which the kernel can evaluate). -/
def strStartsWith (s pre : String) : Bool :=
  pre.data.isPrefixOf s.data

/-! ## Segment allocation (`stream_prd_review`, lines 107-165) -/

/-- The generic default-attribute segment synthesized for a `custom_` id
(`stream_prd_review`, lines 116-136). -/
def mkCustomSegment (config : SegmentConfig) : Segment :=
  { segment_id := config.segment_id
    demographic := { age_range := "18-65", income_level := "varied",
                     family_status := "varied", employment := "varied" }
    behavioral := { tech_savviness := "moderate", time_constraints := "moderate",
                    budget_sensitivity := "moderate",
                    feature_priorities := ["usability", "value", "functionality"] }
    custom_name := config.custom_name
    custom_description := config.custom_description }

/-- One iteration of the `for config in segment_configs` loop building
`segment_distribution`: zero-count entries are skipped, `custom_`-prefixed
ids get a synthesized generic segment, other ids are looked up in the
loaded catalog and silently dropped when absent. -/
def stepDist (catalog : List Segment) (dist : List (String × Segment × Nat))
    (config : SegmentConfig) : List (String × Segment × Nat) :=
  if config.count > 0 then
    if strStartsWith config.segment_id "custom_" then
      dictInsert config.segment_id (mkCustomSegment config, config.count) dist
    else
      match catalog.find? (fun s => s.segment_id == config.segment_id) with
      | some matching_segment =>
          dictInsert config.segment_id (matching_segment, config.count) dist
      | none => dist
  else dist

/-- The `segment_distribution` dict built from a caller-supplied
`segment_configs` list. -/
def buildDistribution (catalog : List Segment) (configs : List SegmentConfig) :
    List (String × Segment × Nat) :=
  configs.foldl (stepDist catalog) []

/-- The default even-split `segment_distribution`:
`personas_per_segment = num_personas // len(all_segments)` for every catalog
segment (dict comprehension keyed by `segment_id`). -/
def defaultDistribution (catalog : List Segment) (num_personas : Nat) :
    List (String × Segment × Nat) :=
  catalog.foldl
    (fun d seg => dictInsert seg.segment_id (seg, num_personas / catalog.length) d) []

/-- Total number of personas an allocation will generate: the sum of the
per-segment counts. -/
def allocTotal (dist : List (String × Segment × Nat)) : Nat :=
  (dist.map (fun e => e.2.2)).sum

/-- The segment ids of an allocation. -/
def allocIds (dist : List (String × Segment × Nat)) : List String :=
  dist.map (fun e => e.1)

/-! ## The SSE event stream -/

/-- One `StreamEvent` of the SSE protocol (timestamps elided; payloads
restricted to the fields the pipeline logic determines). -/
inductive Event where
  | progress (phase : String) (msg : String)
  | persona_generated (segment : String) (name : String) (total_so_far : Nat)
  | review_generated (reviewer_name : String) (total_so_far : Nat)
  | review_complete (total_reviews : Nat)
  | debate_generated (topic : String)
  | debate_complete (debates_conducted : Nat)
  | final_result (reviews_count : Nat) (debates_count : Nat)
  | complete
  | error (msg : String)
  deriving DecidableEq, Repr

/-- `complete` and `error` are the two stream-terminating event types. -/
def Event.isTerminal : Event → Bool
  | .complete => true
  | .error _ => true
  | _ => false

/-- Events the pipeline body may emit mid-stream: everything except the
terminal events and the `final_result` event (which the success epilogue
alone emits). -/
def Event.isMid : Event → Bool
  | .complete => false
  | .error _ => false
  | .final_result _ _ => false
  | _ => true

/-- A stream fragment consisting solely of mid-stream events. -/
def MidOnly (evs : List Event) : Prop :=
  ∀ e ∈ evs, e.isMid = true

/-- Number of `review_generated` events in a stream. -/
def countReviewGenerated (evs : List Event) : Nat :=
  (evs.filter (fun e => match e with
    | .review_generated _ _ => true
    | _ => false)).length

/-- Number of `persona_generated` events in a stream. -/
def countPersonaGenerated (evs : List Event) : Nat :=
  (evs.filter (fun e => match e with
    | .persona_generated _ _ _ => true
    | _ => false)).length

/-- Number of `error` events in a stream. -/
def countErrors (evs : List Event) : Nat :=
  (evs.filter (fun e => match e with
    | .error _ => true
    | _ => false)).length

/-! ## The streaming generator `stream_prd_review`

The generator body runs inside one big `try`; any uncaught exception
reaches the top-level `except`, which emits a single `error` event and ends
the stream.  We model the body as `Except (List Event × String) (List Event)`:
the error case carries the events yielded so far plus the exception message.
-/

/-- Accumulator of the persona-generation loop (lines 172-210):
`all_personas`, the `persona_to_segment` dict, `variation_index`, and the
events yielded so far. -/
structure PersonaGenState where
  all_personas : List Persona
  persona_to_segment : List (String × String)
  variation_index : Nat
  events : List Event
  deriving Repr

/-- Inner `for i in range(count)` loop of persona generation.  The
`generate_persona_variation` call is NOT wrapped in a `try`, so a failure
propagates out of the generator body. -/
def genPersonasForSegment (o : Oracles) (segment_id : String) (segment : Segment) :
    Nat → PersonaGenState → Except (List Event × String) PersonaGenState
  | 0, st => .ok st
  | Nat.succ k, st =>
      match generate_persona_variation o segment st.variation_index with
      | .error msg => .error (st.events, msg)
      | .ok persona =>
          genPersonasForSegment o segment_id segment k
            { all_personas := st.all_personas ++ [persona]
              persona_to_segment :=
                dictInsert persona.name segment_id st.persona_to_segment
              variation_index := st.variation_index + 1
              events := st.events ++
                [Event.persona_generated segment_id persona.name
                  (st.all_personas.length + 1)] }

/-- Outer `for segment_id, config in segment_distribution.items()` loop:
a per-segment `progress` event, then the inner generation loop. -/
def genPersonasLoop (o : Oracles) :
    List (String × Segment × Nat) → PersonaGenState →
    Except (List Event × String) PersonaGenState
  | [], st => .ok st
  | (segment_id, segment, count) :: rest, st =>
      match genPersonasForSegment o segment_id segment count
        { st with events := st.events ++
            [Event.progress "persona_generation"
              ("Generating " ++ toString count ++ " personas for "
                ++ segment_id ++ "...")] } with
      | .error e => .error e
      | .ok st' => genPersonasLoop o rest st'

/-- The `b.ReviewPRD` arguments built in the streaming review loop
(lines 255-264); `persona_segment` comes from
`persona_to_segment.get(persona.name, "unknown")`. -/
def mkReviewArgs (p : Persona) (persona_segment : String) (prd : String) :
    ReviewArgs :=
  { persona_name := p.name, persona_age := p.age,
    persona_occupation := p.occupation, persona_tech_comfort := p.tech_comfort,
    persona_pain_points := p.pain_points, persona_goals := p.goals,
    persona_segment := persona_segment, prd_content := prd }

/-- The streaming review loop (lines 250-282): each persona is reviewed
inside its own `try`; a failed invocation is printed and skipped
(`continue`), a successful one is appended and streamed as one
`review_generated` event. -/
def reviewsLoop (o : Oracles) (prd : String) (p2s : List (String × String)) :
    List Persona → List Review → List Event → List Review × List Event
  | [], reviews, evs => (reviews, evs)
  | p :: rest, reviews, evs =>
      match o.reviewPRD (mkReviewArgs p (dictGetD p2s p.name "unknown") prd) with
      | .ok review =>
          reviewsLoop o prd p2s rest (reviews ++ [review])
            (evs ++ [Event.review_generated review.reviewer_name
              (reviews.length + 1)])
      | .error _ => reviewsLoop o prd p2s rest reviews evs

/-- `seg_negative`: reviews of a segment whose sentiment is in
`["negative", "neutral"]` (line 316). -/
def seg_negative (seg_reviews : List Review) : Nat :=
  (seg_reviews.filter (fun r =>
    r.overall_sentiment == "negative" || r.overall_sentiment == "neutral")).length

/-- Append a review to its segment's group, creating the group at the end
of the dict if the segment is new (lines 306-311). -/
def appendGroup (seg : String) (r : Review) :
    List (String × List Review) → List (String × List Review)
  | [] => [(seg, [r])]
  | (k, rs) :: rest =>
      if k = seg then (k, rs ++ [r]) :: rest
      else (k, rs) :: appendGroup seg r rest

/-- `segment_reviews`: reviews grouped by `reviewer_segment`, in insertion
order. -/
def groupBySegment (reviews : List Review) : List (String × List Review) :=
  reviews.foldl (fun acc r => appendGroup r.reviewer_segment r acc) []

/-- The segments the debate loop selects for a debate: groups with
`seg_negative >= 2` (the guard on line 317). -/
def eligibleSegments (reviews : List Review) : List String :=
  ((groupBySegment reviews).filter
    (fun kv => decide (2 ≤ seg_negative kv.2))).map Prod.fst

/-- The per-segment debate loop (lines 314-362): a segment debates only if
it has `seg_negative >= 2`; the `debate_running` progress event is yielded
before the oracle call, and a failing `b.FacilitateDebate` call is caught
and skipped (`continue`). -/
def debateLoop (o : Oracles) :
    List (String × List Review) → List DebateSession → List Event →
    List DebateSession × List Event
  | [], debates, evs => (debates, evs)
  | (segment_id, seg_reviews) :: rest, debates, evs =>
      if 2 ≤ seg_negative seg_reviews then
        let evs' := evs ++ [Event.progress "debate_running"
          ("Running debate for " ++ segment_id ++ " segment...")]
        match o.facilitateDebate
          ("PRD concerns and missing features for " ++ segment_id)
          segment_id seg_reviews with
        | .ok debate =>
            debateLoop o rest (debates ++ [debate])
              (evs' ++ [Event.debate_generated debate.topic])
        | .error _ => debateLoop o rest debates evs'
      else debateLoop o rest debates evs

/-- The `if debates:` epilogue of the debate branch (lines 364-367): a
`debate_complete` event iff at least one debate was produced. -/
def debateConcluded (res : List DebateSession × List Event) :
    List DebateSession × List Event :=
  if res.1 = [] then res
  else (res.1, res.2 ++ [Event.debate_complete res.1.length])

/-- The debate phase (lines 296-372): runs iff
`concerning_sentiment_pct > 20`; afterwards a `debate_complete` event iff
any debate was produced, else (skip branch) a `debate_skipped` progress
event. -/
def debatePhase (o : Oracles) (reviews : List Review) (evs : List Event) :
    List DebateSession × List Event :=
  if concerningSentimentPct reviews > 20 then
    debateConcluded (debateLoop o (groupBySegment reviews) []
      (evs ++ [Event.progress "debates_starting"
        "Concerning sentiment detected - running agent debates..."]))
  else
    ([], evs ++ [Event.progress "debate_skipped"
      "Debate phase skipped (sentiment below 20% threshold)"])

/-- The default even-split branch of distribution building, with its
progress event; it divides by `len(all_segments)` without a guard
(`ZeroDivisionError` when the catalog is empty). -/
def defaultDistributionE (catalog : List Segment) (num_personas : Nat)
    (evs : List Event) :
    Except (List Event × String) (List (String × Segment × Nat) × List Event) :=
  if catalog.length = 0 then
    .error (evs, "integer division or modulo by zero")
  else
    .ok (defaultDistribution catalog num_personas,
      evs ++ [Event.progress "persona_generation"
        ("Generating " ++ toString num_personas ++ " personas across "
          ++ toString catalog.length ++ " segments...")])

/-- Building `segment_distribution` with its progress event.  Python's
`if segment_configs:` is falsy for `None` AND for the empty list, so both
take the default even-split branch. -/
def buildDistributionE (catalog : List Segment) (num_personas : Nat)
    (cfgs : Option (List SegmentConfig)) (evs : List Event) :
    Except (List Event × String) (List (String × Segment × Nat) × List Event) :=
  match cfgs with
  | some l =>
      if l.isEmpty then defaultDistributionE catalog num_personas evs
      else
        .ok (buildDistribution catalog l,
          evs ++ [Event.progress "persona_generation"
            ("Generating " ++ toString num_personas ++ " personas across "
              ++ toString (buildDistribution catalog l).length
              ++ " custom segments...")])
  | none => defaultDistributionE catalog num_personas evs

/-- The two events the generator yields before loading segments. -/
def initEvents (num_personas : Nat) : List Event :=
  [Event.progress "initialization"
    ("Starting PRD review with " ++ toString num_personas ++ " personas"),
   Event.progress "persona_generation" "Loading demographic segments..."]

/-- The four progress events yielded between persona generation and the
review loop (lines 212-248). -/
def postPersonaEvents (st : PersonaGenState) : List Event :=
  st.events ++
    [Event.progress "persona_generation_complete"
      ("Generated " ++ toString st.all_personas.length ++ " personas"),
     Event.progress "workflow_creation" "Initializing LangGraph workflow...",
     Event.progress "phase1_reviews"
      ("Phase 1: Running " ++ toString st.all_personas.length
        ++ " independent PRD reviews..."),
     Event.progress "phase1_executing" "Running independent reviews..."]

/-- Outcome of the streaming review loop over the generated personas. -/
def reviewPhaseRes (o : Oracles) (prd : String) (st : PersonaGenState) :
    List Review × List Event :=
  reviewsLoop o prd st.persona_to_segment st.all_personas []
    (postPersonaEvents st)

/-- The aggregation epilogue (lines 385-483): the `aggregating` progress
event, then the single `b.AggregateReviews` call — NOT locally guarded, so
its failure escapes to the top-level handler — then `final_result` and
`complete`. -/
def finalAggregation (o : Oracles) (reviews : List Review)
    (dres : List DebateSession × List Event) (total_personas : Nat) :
    Except (List Event × String) (List Event) :=
  match o.aggregateReviews reviews dres.1 total_personas with
  | .error msg =>
      .error (dres.2 ++ [Event.progress "aggregating"
        "Aggregating insights from all reviews..."], msg)
  | .ok _insights =>
      .ok (dres.2 ++ [Event.progress "aggregating"
        "Aggregating insights from all reviews...",
        Event.final_result reviews.length dres.1.length, Event.complete])

/-- The generator body from the end of persona generation onwards: review
fan-out, `review_complete`, conditional debate phase, aggregation. -/
def streamPhase2 (o : Oracles) (prd : String) (st : PersonaGenState) :
    Except (List Event × String) (List Event) :=
  finalAggregation o (reviewPhaseRes o prd st).1
    (debatePhase o (reviewPhaseRes o prd st).1
      ((reviewPhaseRes o prd st).2 ++
        [Event.review_complete (reviewPhaseRes o prd st).1.length]))
    st.all_personas.length

/-- Body of the `stream_prd_review` generator, inside the top-level `try`:
initialization events, allocation, persona generation, then the review,
debate and aggregation phases. -/
def streamBody (o : Oracles) (catalog : List Segment) (prd : String)
    (num_personas : Nat) (cfgs : Option (List SegmentConfig)) :
    Except (List Event × String) (List Event) :=
  match buildDistributionE catalog num_personas cfgs (initEvents num_personas) with
  | .error e => .error e
  | .ok (dist, evs) =>
    match genPersonasLoop o dist
      { all_personas := [], persona_to_segment := [],
        variation_index := 0, events := evs } with
    | .error e => .error e
    | .ok st => streamPhase2 o prd st

/-- The full `stream_prd_review` generator: the body's uncaught exception is
turned into one final `error` event by the top-level `except`. -/
def runStream (o : Oracles) (catalog : List Segment) (prd : String)
    (num_personas : Nat) (cfgs : Option (List SegmentConfig)) : List Event :=
  match streamBody o catalog prd num_personas cfgs with
  | .ok evs => evs
  | .error (evs, msg) => evs ++ [Event.error msg]

/-! ## The batch LangGraph workflow (`langgraph_workflow.py`) -/

/-- The `WorkflowState` fields the aggregation/review nodes manipulate. -/
structure BatchState where
  prd_content : String
  personas : List Persona
  reviews : List Review
  negative_sentiment_pct : ℚ
  debates : Option (List DebateSession)
  final_insights : Option AggregatedInsights
  deriving Repr

/-- The review loop of `phase1_reviews_node` (lines 146-171): every
`b.ReviewPRD` call passes the literal `persona_segment="unknown"`
(the source comments `# We'd need to track this`); a failing call is
printed and skipped. -/
def phase1ReviewsLoop (o : Oracles) (prd : String) :
    List Persona → List Review → List Review
  | [], reviews => reviews
  | p :: rest, reviews =>
      match o.reviewPRD (mkReviewArgs p "unknown" prd) with
      | .ok review => phase1ReviewsLoop o prd rest (reviews ++ [review])
      | .error _ => phase1ReviewsLoop o prd rest reviews

/-- `phase1_reviews_node`: run all reviews, then compute
`negative_pct = (negative_count / len(reviews)) * 100` with NO empty-list
guard — `none` models the `ZeroDivisionError` escaping the node. -/
def phase1_reviews_node (o : Oracles) (state : BatchState) :
    Except String BatchState :=
  let reviews := phase1ReviewsLoop o state.prd_content state.personas []
  match phase1NegativePct reviews with
  | none => .error "division by zero"
  | some pct =>
      .ok { state with reviews := reviews, negative_sentiment_pct := pct }

/-- `aggregation_node` (lines 292-343): the `b.AggregateReviews` call is
wrapped in `try/except Exception`, so the node NEVER raises: on failure it
prints and stores `final_insights = None`.  Note the call passes
`total_personas=len(reviews)`. -/
def aggregation_node (o : Oracles) (state : BatchState) :
    Except String BatchState :=
  let debates := state.debates.getD []
  match o.aggregateReviews state.reviews debates state.reviews.length with
  | .ok insights => .ok { state with final_insights := some insights }
  | .error _ => .ok { state with final_insights := none }

/-- `skip_debate_node`: clears debates and continues. -/
def skip_debate_node (state : BatchState) : BatchState :=
  { state with debates := none }

/-! ## Concrete fixtures for witnesses and counterexamples -/

/-- A concrete demographic block. -/
def demoDemographic : Demographic :=
  { age_range := "25-40", income_level := "middle", family_status := "single",
    employment := "employed" }

/-- A concrete behavioral block. -/
def demoBehavioral : Behavioral :=
  { tech_savviness := "high", time_constraints := "low",
    budget_sensitivity := "medium", feature_priorities := ["speed"] }

/-- A concrete catalog segment named `families`. -/
def famSegment : Segment :=
  { segment_id := "families", demographic := demoDemographic,
    behavioral := demoBehavioral }

/-- A one-segment catalog. -/
def cat1 : List Segment := [famSegment]

/-- A concrete persona. -/
def demoPersona : Persona :=
  { name := "Alex", age := 30, occupation := "nurse",
    tech_comfort := "moderate", income_level := "middle",
    pain_points := ["time"], goals := ["save time"],
    preferred_channels := ["email"], quote := "busy" }

/-- A review oracle answer echoing the supplied name and segment with a
positive sentiment. -/
def positiveReviewFor (a : ReviewArgs) : Review :=
  { reviewer_name := a.persona_name, reviewer_segment := a.persona_segment,
    overall_sentiment := "positive", willingness_to_adopt := 8,
    key_concerns := [], missing_features := [], what_they_loved := [],
    dealbreakers := [], reasoning := "", persona_quote := "" }

/-- A concrete debate session. -/
def demoDebate : DebateSession :=
  { topic := "t", participants := [], key_insight := "k" }

/-- A concrete aggregated-insights record. -/
def demoInsights : AggregatedInsights :=
  { total_reviews := 0, sentiment_breakdown := ⟨0, 0, 0, 0⟩,
    risk_score := 0, executive_summary := "" }

/-- Oracles on which every call succeeds. -/
def happyOracles : Oracles :=
  { generatePersona := fun _ => .ok demoPersona
    reviewPRD := fun a => .ok (positiveReviewFor a)
    facilitateDebate := fun _ _ _ => .ok demoDebate
    aggregateReviews := fun _ _ _ => .ok demoInsights }

/-- Oracles on which every `ReviewPRD` call raises. -/
def reviewFailOracles : Oracles :=
  { happyOracles with reviewPRD := fun _ => .error "review boom" }

/-- A template review used to build concrete review lists. -/
def reviewBase : Review :=
  { reviewer_name := "R", reviewer_segment := "seg",
    overall_sentiment := "positive", willingness_to_adopt := 5,
    key_concerns := [], missing_features := [], what_they_loved := [],
    dealbreakers := [], reasoning := "", persona_quote := "" }

/-- Five reviews of which exactly one is neutral: `concerning_pct = 20`. -/
def boundaryReviews : List Review :=
  [{ reviewBase with overall_sentiment := "neutral" },
   reviewBase, reviewBase, reviewBase, reviewBase]

/-- A batch state holding one persona and no reviews yet. -/
def batchState0 : BatchState :=
  { prd_content := "p", personas := [demoPersona], reviews := [],
    negative_sentiment_pct := 0, debates := none, final_insights := none }

/-- `Except` success test. -/
def exceptOk {ε α : Type} : Except ε α → Bool
  | .ok _ => true
  | .error _ => false

/-- Ten personas named `P1` … `P10`. -/
def personas10 : List Persona :=
  (List.range 10).map (fun i => { demoPersona with name := "P" ++ toString (i + 1) })

/-- A `ReviewPRD` oracle answer failing exactly for the personas named
`P3`, `P6` and `P9`. -/
def reviewFail3Fn (a : ReviewArgs) : Except String Review :=
  if a.persona_name = "P3" ∨ a.persona_name = "P6" ∨ a.persona_name = "P9" then
    .error "review boom"
  else .ok (positiveReviewFor a)

/-- Oracles whose `ReviewPRD` call fails exactly for the personas named
`P3`, `P6` and `P9`. -/
def reviewFail3Oracles : Oracles :=
  { happyOracles with reviewPRD := reviewFail3Fn }

/-- Oracles whose `GeneratePersona` call always fails. -/
def personaFailOracles : Oracles :=
  { happyOracles with generatePersona := fun _ => .error "persona boom" }

/-- Oracles whose review and aggregation calls fail. -/
def aggFailOracles : Oracles :=
  { happyOracles with
      reviewPRD := fun _ => .error "review boom"
      aggregateReviews := fun _ _ _ => .error "agg boom" }

/-- A second concrete catalog segment named `students`. -/
def stuSegment : Segment :=
  { segment_id := "students", demographic := demoDemographic,
    behavioral := demoBehavioral }

/-- A two-segment catalog. -/
def cat2 : List Segment := [famSegment, stuSegment]

/-- A distribution entry is retained by the allocation loop iff its count
is positive and its id is either `custom_`-prefixed or found in the
catalog. -/
def retainedCfg (catalog : List Segment) (c : SegmentConfig) : Bool :=
  decide (c.count > 0) &&
    (strStartsWith c.segment_id "custom_" ||
      (catalog.find? (fun s => s.segment_id == c.segment_id)).isSome)

/-- A config entry referencing the catalog segment `families`. -/
def cfgFam : SegmentConfig := { segment_id := "families", count := 2 }

/-- A config entry with an unknown, non-custom id. -/
def cfgGhost : SegmentConfig := { segment_id := "ghost", count := 5 }

/-- A negative review in segment `seg`. -/
def revNeg : Review := { reviewBase with overall_sentiment := "negative" }

/-- A neutral review in segment `seg`. -/
def revNeu : Review := { reviewBase with overall_sentiment := "neutral" }

/-- Three reviews of segment `seg`, two of them concerning. -/
def permListX : List Review := revNeg :: revNeu :: [reviewBase]

/-- The same reviews with the first two swapped. -/
def permListY : List Review := revNeu :: revNeg :: [reviewBase]

/-- A custom config entry. -/
def cfgCustom : SegmentConfig :=
  { segment_id := "custom_vips", count := 3,
    custom_name := some "VIPs", custom_description := some "vip users" }

/-! ## C1 — exclusive debate thresholds -/

/-- C1: debate routing uses strictly exclusive thresholds.  In the
streaming path the debate phase runs iff `concerning_pct > 20`, so
`concerning_pct = 20` skips it; the batch `should_debate` router returns
`"debate"` iff `negative_pct > 30`, so `negative_pct = 30` routes to
`"skip_debate"`. -/
theorem c1_debate_threshold_exclusive (reviews : List Review) (p : ℚ) :
    (streamDebateRuns reviews = true ↔ concerningSentimentPct reviews > 20) ∧
    (concerningSentimentPct reviews = 20 → streamDebateRuns reviews = false) ∧
    (should_debate p = "debate" ↔ p > 30) ∧
    (p = 30 → should_debate p = "skip_debate") := by
  refine ⟨by simp [streamDebateRuns], ?_, ?_, ?_⟩
  · intro h
    simp [streamDebateRuns, h]
  · unfold should_debate batchDebateThreshold
    split_ifs with h
    · simp [h]
    · simp [h]
  · intro h
    unfold should_debate batchDebateThreshold
    rw [if_neg (by rw [h]; exact lt_irrefl 30)]

/-- C1 witness: a concrete review set with `concerning_pct` exactly 20 is
routed away from debate, and `negative_pct = 30` exactly is routed to
`"skip_debate"`. -/
theorem c1_witness :
    concerningSentimentPct boundaryReviews = 20 ∧
    streamDebateRuns boundaryReviews = false ∧
    should_debate 30 = "skip_debate" := by
  have h1 : concerningCount boundaryReviews = 1 := rfl
  have h2 : boundaryReviews.length = 5 := rfl
  have h3 : ¬(boundaryReviews = []) := by simp [boundaryReviews]
  have h20 : concerningSentimentPct boundaryReviews = 20 := by
    unfold concerningSentimentPct
    rw [if_neg h3, h1, h2]
    norm_num
  exact ⟨h20, (c1_debate_threshold_exclusive boundaryReviews 30).2.1 h20,
    (c1_debate_threshold_exclusive boundaryReviews 30).2.2.2 rfl⟩

/-! ## C9 — variation-directive selection is pure and cyclic -/

/-- C9: the variation directive is a pure function of the variation index:
`generate_persona_variation` consults only `(segment, index)`, the directive
embedded in its prompt is the fixed pool entry at `index % pool_size`
(directives agree exactly when the indices agree modulo the pool size), and
selection is cyclic with period `pool_size`, independent of segment and of
how many calls were made before. -/
theorem c9_variation_directive_pure (o : Oracles) (seg : Segment) (i j : Nat) :
    generate_persona_variation o seg i =
      o.generatePersona (segmentData seg i) ∧
    variationPrompt i = VARIATION_PROMPTS[i % VARIATION_PROMPTS.length]! ∧
    (variationPrompt i = variationPrompt j ↔
      i % VARIATION_PROMPTS.length = j % VARIATION_PROMPTS.length) ∧
    variationPrompt (i + VARIATION_PROMPTS.length) = variationPrompt i := by
  refine ⟨rfl, rfl, ?_, ?_⟩
  · have key : ∀ a b : Fin 10,
        (VARIATION_PROMPTS[a.val]! = VARIATION_PROMPTS[b.val]! ↔
          a.val = b.val) := by decide
    have hlen : VARIATION_PROMPTS.length = 10 := rfl
    simp only [variationPrompt, hlen]
    have ha : i % 10 < 10 := Nat.mod_lt _ (by norm_num)
    have hb : j % 10 < 10 := Nat.mod_lt _ (by norm_num)
    exact key ⟨i % 10, ha⟩ ⟨j % 10, hb⟩
  · simp only [variationPrompt]
    congr 1
    exact Nat.add_mod_right _ _

/-! ## C3 — zero completed reviews -/

/-- C3: for an empty review list the STREAMING path computes
`negative_pct = 0` and `concerning_pct = 0`, skips debate and runs to
`complete` (zero reviews is not a pipeline error there); but the BATCH
`phase1_reviews_node` divides by `len(reviews)` without a guard, so when
all review invocations fail it raises `ZeroDivisionError` instead of
yielding 0 — the batch path does not proceed past the sentiment
computation. -/
theorem c3_empty_reviews_sentiment :
    negativeSentimentPct [] = 0 ∧
    concerningSentimentPct [] = 0 ∧
    streamDebateRuns [] = false ∧
    (runStream reviewFailOracles cat1 "p" 4 none).getLast? =
      some Event.complete ∧
    countReviewGenerated (runStream reviewFailOracles cat1 "p" 4 none) = 0 ∧
    phase1NegativePct [] = none ∧
    phase1_reviews_node reviewFailOracles batchState0 =
      .error "division by zero" :=
  ⟨rfl, rfl, by decide, by decide, by decide, rfl, rfl⟩

/-! ## C5 — debate eligibility is count-based and order-independent -/

/-- Looking a key up after `appendGroup`: the added review lands at the end
of its own key's group, every other key's group is unchanged. -/
theorem dictGetD_appendGroup (g : List (String × List Review)) (seg : String)
    (r : Review) (s : String) :
    dictGetD (appendGroup seg r g) s [] =
      if s = seg then dictGetD g s [] ++ [r] else dictGetD g s [] := by
  induction g with
  | nil =>
      simp only [appendGroup, dictGetD]
      by_cases h : s = seg
      · rw [if_pos h.symm, if_pos h, List.nil_append]
      · rw [if_neg (fun hh => h hh.symm), if_neg h]
  | cons kv rest ih =>
      obtain ⟨k, rs⟩ := kv
      simp only [appendGroup]
      by_cases hk : k = seg
      · rw [if_pos hk]
        simp only [dictGetD]
        by_cases hs : k = s
        · rw [if_pos hs, if_pos (hs.symm.trans hk), if_pos hs]
        · rw [if_neg hs, if_neg (fun hh => hs (hk.trans hh.symm)), if_neg hs]
      · rw [if_neg hk]
        simp only [dictGetD]
        by_cases hs : k = s
        · rw [if_pos hs, if_neg (fun hh => hk (hs.trans hh)), if_pos hs]
        · rw [if_neg hs, ih]
          by_cases hsg : s = seg
          · rw [if_pos hsg, if_pos hsg, if_neg hs]
          · rw [if_neg hsg, if_neg hsg, if_neg hs]

/-- Folding reviews into groups: each key's group is exactly the filtered
sublist of reviews carrying that segment, in order. -/
theorem dictGetD_groupFold (l : List Review)
    (g : List (String × List Review)) (s : String) :
    dictGetD (l.foldl (fun acc r => appendGroup r.reviewer_segment r acc) g) s [] =
      dictGetD g s [] ++ l.filter (fun r => r.reviewer_segment == s) := by
  induction l generalizing g with
  | nil => simp
  | cons r l ih =>
      simp only [List.foldl_cons, List.filter_cons]
      rw [ih, dictGetD_appendGroup]
      by_cases h : s = r.reviewer_segment
      · simp [h]
      · have hb : (r.reviewer_segment == s) = false := by
          simp only [beq_eq_false_iff_ne, ne_eq]
          exact fun hh => h hh.symm
        simp [h, hb]

/-- The group of a segment in `segment_reviews` is that segment's filtered
review list. -/
theorem dictGetD_group (reviews : List Review) (s : String) :
    dictGetD (groupBySegment reviews) s [] =
      reviews.filter (fun r => r.reviewer_segment == s) := by
  have h := dictGetD_groupFold reviews [] s
  simpa [groupBySegment, dictGetD] using h

/-- Keys after `appendGroup`: membership adds the new key. -/
theorem mem_keys_appendGroup (g : List (String × List Review)) (seg : String)
    (r : Review) (s : String) :
    s ∈ (appendGroup seg r g).map Prod.fst ↔
      s = seg ∨ s ∈ g.map Prod.fst := by
  induction g with
  | nil => simp [appendGroup]
  | cons kv rest ih =>
      obtain ⟨k, rs⟩ := kv
      simp only [appendGroup]
      by_cases hk : k = seg
      · subst hk
        simp [List.mem_cons]
      · rw [if_neg hk]
        simp only [List.map_cons, List.mem_cons, ih]
        tauto

/-- Keys of the grouped reviews: exactly the segments occurring in the
list. -/
theorem mem_keys_group (reviews : List Review) (s : String) :
    s ∈ (groupBySegment reviews).map Prod.fst ↔
      ∃ r ∈ reviews, r.reviewer_segment = s := by
  suffices h : ∀ (l : List Review) (g : List (String × List Review)),
      (s ∈ (l.foldl (fun acc r => appendGroup r.reviewer_segment r acc) g).map
          Prod.fst ↔
        s ∈ g.map Prod.fst ∨ ∃ r ∈ l, r.reviewer_segment = s) by
    simpa [groupBySegment] using h reviews []
  intro l
  induction l with
  | nil => simp
  | cons r l ih =>
      intro g
      simp only [List.foldl_cons]
      rw [ih, mem_keys_appendGroup]
      constructor
      · rintro ((h | h) | ⟨r', hr', h⟩)
        · exact Or.inr ⟨r, by simp, h.symm⟩
        · exact Or.inl h
        · exact Or.inr ⟨r', by simp [hr'], h⟩
      · rintro (h | ⟨r', hr', h⟩)
        · exact Or.inl (Or.inr h)
        · rcases List.mem_cons.mp hr' with h' | h'
          · exact Or.inl (Or.inl (h' ▸ h.symm))
          · exact Or.inr ⟨r', h', h⟩

/-- Keys after `appendGroup` as a list equation. -/
theorem keys_appendGroup (g : List (String × List Review)) (seg : String)
    (r : Review) :
    (appendGroup seg r g).map Prod.fst =
      if seg ∈ g.map Prod.fst then g.map Prod.fst
      else g.map Prod.fst ++ [seg] := by
  induction g with
  | nil => simp [appendGroup]
  | cons kv rest ih =>
      obtain ⟨k, rs⟩ := kv
      simp only [appendGroup]
      by_cases hk : k = seg
      · subst hk
        simp
      · rw [if_neg hk]
        simp only [List.map_cons, ih]
        by_cases hmem : seg ∈ rest.map Prod.fst
        · rw [if_pos hmem,
            if_pos (show seg ∈ k :: rest.map Prod.fst from
              List.mem_cons_of_mem _ hmem)]
        · rw [if_neg hmem,
            if_neg (show seg ∉ k :: rest.map Prod.fst from by
              simp only [List.mem_cons, not_or]
              exact ⟨fun hh => hk hh.symm, hmem⟩)]
          simp

/-- The grouped-review dict has pairwise-distinct keys. -/
theorem nodup_keys_group (reviews : List Review) :
    ((groupBySegment reviews).map Prod.fst).Nodup := by
  suffices h : ∀ (l : List Review) (g : List (String × List Review)),
      (g.map Prod.fst).Nodup →
      ((l.foldl (fun acc r => appendGroup r.reviewer_segment r acc) g).map
        Prod.fst).Nodup by
    exact h reviews [] (by simp)
  intro l
  induction l with
  | nil => intro g hg; simpa using hg
  | cons r l ih =>
      intro g hg
      simp only [List.foldl_cons]
      apply ih
      rw [keys_appendGroup]
      split_ifs with hmem
      · exact hg
      · simp [List.nodup_append, hg, hmem]

/-- In a dict with distinct keys, every entry's value is what lookup
returns at its key. -/
theorem mem_group_val (g : List (String × List Review))
    (kv : String × List Review) (hnd : (g.map Prod.fst).Nodup)
    (hmem : kv ∈ g) : kv.2 = dictGetD g kv.1 [] := by
  induction g with
  | nil => cases hmem
  | cons kv' rest ih =>
      rcases List.mem_cons.mp hmem with h | h
      · subst h
        simp [dictGetD]
      · have hk : kv'.1 ≠ kv.1 := by
          intro heq
          have h1 : kv.1 ∈ rest.map Prod.fst := List.mem_map_of_mem Prod.fst h
          have h2 := (List.nodup_cons.mp hnd).1
          exact h2 (heq ▸ h1)
        simp only [dictGetD, if_neg hk]
        exact ih (List.nodup_cons.mp hnd).2 h

/-- A segment is selected by the debate loop iff it has at least two
concerning reviews among the run's reviews. -/
theorem eligible_iff (reviews : List Review) (s : String) :
    s ∈ eligibleSegments reviews ↔
      2 ≤ seg_negative (reviews.filter (fun r => r.reviewer_segment == s)) := by
  unfold eligibleSegments
  rw [List.mem_map]
  constructor
  · rintro ⟨kv, hkv, rfl⟩
    obtain ⟨hmem, hcnt⟩ := List.mem_filter.mp hkv
    rw [decide_eq_true_eq] at hcnt
    have hval := mem_group_val _ kv (nodup_keys_group reviews) hmem
    rwa [hval, dictGetD_group] at hcnt
  · intro h
    have hne : reviews.filter (fun r => r.reviewer_segment == s) ≠ [] := by
      intro hnil
      rw [hnil] at h
      simp [seg_negative] at h
    obtain ⟨r, hr⟩ := List.exists_mem_of_ne_nil _ hne
    obtain ⟨hrr, hrs⟩ := List.mem_filter.mp hr
    have hkey : s ∈ (groupBySegment reviews).map Prod.fst :=
      (mem_keys_group reviews s).mpr ⟨r, hrr, by simpa using hrs⟩
    obtain ⟨kv, hkv, hfst⟩ := List.mem_map.mp hkey
    refine ⟨kv, List.mem_filter.mpr ⟨hkv, ?_⟩, hfst⟩
    rw [decide_eq_true_eq,
      mem_group_val _ kv (nodup_keys_group reviews) hkv, hfst, dictGetD_group]
    exact h

/-- C5: debate eligibility is a monotone, order-independent predicate: a
segment is selected by the debate loop iff it has at least 2 reviews with
negative or neutral sentiment, this is invariant under any permutation of
the review list, and a segment with at most 1 concerning review is never
selected. -/
theorem c5_eligibility_monotone_perm (reviews reviews' : List Review)
    (s : String) (hperm : reviews.Perm reviews') :
    (s ∈ eligibleSegments reviews ↔
      2 ≤ seg_negative (reviews.filter (fun r => r.reviewer_segment == s))) ∧
    (s ∈ eligibleSegments reviews ↔ s ∈ eligibleSegments reviews') ∧
    (seg_negative (reviews.filter (fun r => r.reviewer_segment == s)) ≤ 1 →
      s ∉ eligibleSegments reviews) := by
  have h1 := eligible_iff reviews s
  have h2 := eligible_iff reviews' s
  have hcnt : seg_negative (reviews.filter (fun r => r.reviewer_segment == s)) =
      seg_negative (reviews'.filter (fun r => r.reviewer_segment == s)) := by
    unfold seg_negative
    exact ((hperm.filter _).filter _).length_eq
  refine ⟨h1, ?_, ?_⟩
  · rw [h1, h2, hcnt]
  · intro hle hmem
    have := h1.mp hmem
    omega

/-- C5 witness: a concrete segment with two concerning reviews is selected,
and stays selected after swapping the first two reviews. -/
theorem c5_witness :
    "seg" ∈ eligibleSegments permListX ∧ "seg" ∈ eligibleSegments permListY := by
  have h := c5_eligibility_monotone_perm permListX permListY "seg"
    (List.Perm.swap revNeu revNeg [reviewBase])
  have hcnt :
      2 ≤ seg_negative (permListX.filter (fun r => r.reviewer_segment == "seg")) := by
    decide
  exact ⟨h.1.mpr hcnt, h.2.1.mp (h.1.mpr hcnt)⟩

/-! ## C4 — locality of unit failures -/

/-- `review_generated` counting distributes over stream append. -/
theorem countReviewGenerated_append (a b : List Event) :
    countReviewGenerated (a ++ b) =
      countReviewGenerated a + countReviewGenerated b := by
  simp [countReviewGenerated, List.filter_append]

/-- `error` counting distributes over stream append. -/
theorem countErrors_append (a b : List Event) :
    countErrors (a ++ b) = countErrors a + countErrors b := by
  simp [countErrors, List.filter_append]

/-- The reviews accumulated by the streaming review loop are exactly the
successful oracle answers, in order. -/
theorem reviewsLoop_reviews (o : Oracles) (prd : String)
    (p2s : List (String × String)) :
    ∀ (l : List Persona) (revs : List Review) (evs : List Event),
    (reviewsLoop o prd p2s l revs evs).1 =
      revs ++ l.filterMap (fun p =>
        (o.reviewPRD (mkReviewArgs p (dictGetD p2s p.name "unknown") prd)).toOption)
  | [], revs, evs => by simp [reviewsLoop]
  | p :: l, revs, evs => by
      cases h : o.reviewPRD (mkReviewArgs p (dictGetD p2s p.name "unknown") prd) with
      | ok r =>
          have hsome :
              (fun q => (o.reviewPRD
                (mkReviewArgs q (dictGetD p2s q.name "unknown") prd)).toOption) p =
              some r := by
            simp only [h]
            rfl
          rw [@List.filterMap_cons_some _ _
            (fun q => (o.reviewPRD
                (mkReviewArgs q (dictGetD p2s q.name "unknown") prd)).toOption) p l r hsome]
          simp only [reviewsLoop, h]
          rw [reviewsLoop_reviews o prd p2s l (revs ++ [r]) _]
          simp
      | error e =>
          have hnone :
              (fun q => (o.reviewPRD
                (mkReviewArgs q (dictGetD p2s q.name "unknown") prd)).toOption) p =
              none := by
            simp only [h]
            rfl
          rw [@List.filterMap_cons_none _ _
            (fun q => (o.reviewPRD
                (mkReviewArgs q (dictGetD p2s q.name "unknown") prd)).toOption) p l hnone]
          simp only [reviewsLoop, h]
          exact reviewsLoop_reviews o prd p2s l revs evs

/-- Successful oracle answers in a persona list, counted. -/
theorem length_filterMap_toOption (f : Persona → Except String Review)
    (l : List Persona) :
    (l.filterMap (fun p => (f p).toOption)).length =
      l.countP (fun p => exceptOk (f p)) := by
  induction l with
  | nil => rfl
  | cons p l ih =>
      cases h : f p with
      | ok r =>
          have hsome : (fun q => (f q).toOption) p = some r := by
            simp only [h]
            rfl
          have hok : exceptOk (f p) = true := by rw [h]; rfl
          rw [@List.filterMap_cons_some _ _ (fun q => (f q).toOption) p l r hsome,
            List.countP_cons]
          simp [ih, hok]
      | error e =>
          have hnone : (fun q => (f q).toOption) p = none := by
            simp only [h]
            rfl
          have hko : exceptOk (f p) = false := by rw [h]; rfl
          rw [@List.filterMap_cons_none _ _ (fun q => (f q).toOption) p l hnone,
            List.countP_cons]
          simp [ih, hko]

/-- The streaming review loop emits one `review_generated` event per
successful invocation and no `error` event at all. -/
theorem reviewsLoop_events (o : Oracles) (prd : String)
    (p2s : List (String × String)) :
    ∀ (l : List Persona) (revs : List Review) (evs : List Event),
    countReviewGenerated (reviewsLoop o prd p2s l revs evs).2 =
      countReviewGenerated evs + l.countP (fun p =>
        exceptOk (o.reviewPRD (mkReviewArgs p (dictGetD p2s p.name "unknown") prd))) ∧
    countErrors (reviewsLoop o prd p2s l revs evs).2 = countErrors evs
  | [], revs, evs => by simp [reviewsLoop]
  | p :: l, revs, evs => by
      cases h : o.reviewPRD (mkReviewArgs p (dictGetD p2s p.name "unknown") prd) with
      | ok r =>
          simp only [reviewsLoop, h, List.countP_cons]
          obtain ⟨h1, h2⟩ := reviewsLoop_events o prd p2s l (revs ++ [r])
            (evs ++ [Event.review_generated r.reviewer_name (revs.length + 1)])
          rw [h1, h2, countReviewGenerated_append, countErrors_append]
          refine ⟨?_, by simp [countErrors]⟩
          simp [countReviewGenerated, h, exceptOk]
          omega
      | error e =>
          simp only [reviewsLoop, h, List.countP_cons]
          obtain ⟨h1, h2⟩ := reviewsLoop_events o prd p2s l revs evs
          rw [h1, h2]
          refine ⟨?_, rfl⟩
          simp [h, exceptOk]

/-- The debate loop drops a failing debate invocation and emits no `error`
event. -/
theorem debateLoop_countErrors (o : Oracles) :
    ∀ (groups : List (String × List Review)) (debates : List DebateSession)
      (evs : List Event),
    countErrors (debateLoop o groups debates evs).2 = countErrors evs
  | [], debates, evs => by simp [debateLoop]
  | (sid, rs) :: groups, debates, evs => by
      simp only [debateLoop]
      split
      · cases h : o.facilitateDebate
          ("PRD concerns and missing features for " ++ sid) sid rs with
        | ok d =>
            simp only [h]
            rw [debateLoop_countErrors o groups]
            simp [countErrors_append, countErrors]
        | error e =>
            simp only [h]
            rw [debateLoop_countErrors o groups]
            simp [countErrors_append, countErrors]
      · exact debateLoop_countErrors o groups debates evs

/-- C4 (amended): a failed review invocation and a failed debate invocation
are recovered locally — the unit is dropped, the loop continues, no `error`
event is emitted, and with 10 personas of which exactly 3 reviews fail the
review stage yields exactly 7 reviews and 7 `review_generated` events.
(A streaming persona-synthesis failure, by contrast, aborts the run: see
the counterexample.) -/
theorem c4_unit_failure_locality (o : Oracles) (prd : String)
    (p2s : List (String × String)) (personas : List Persona)
    (groups : List (String × List Review)) :
    ((reviewsLoop o prd p2s personas [] []).1).length =
      personas.countP (fun p =>
        exceptOk (o.reviewPRD (mkReviewArgs p (dictGetD p2s p.name "unknown") prd))) ∧
    countReviewGenerated (reviewsLoop o prd p2s personas [] []).2 =
      personas.countP (fun p =>
        exceptOk (o.reviewPRD (mkReviewArgs p (dictGetD p2s p.name "unknown") prd))) ∧
    countErrors (reviewsLoop o prd p2s personas [] []).2 = 0 ∧
    countErrors (debateLoop o groups [] []).2 = 0 ∧
    (reviewsLoop reviewFail3Oracles "p" [] personas10 [] []).1.length = 7 ∧
    countReviewGenerated (reviewsLoop reviewFail3Oracles "p" [] personas10 [] []).2 = 7 ∧
    countErrors (reviewsLoop reviewFail3Oracles "p" [] personas10 [] []).2 = 0 := by
  obtain ⟨h1, h2⟩ := reviewsLoop_events o prd p2s personas [] []
  refine ⟨?_, by simpa [countReviewGenerated] using h1,
    by simpa [countErrors] using h2,
    by simpa [countErrors] using debateLoop_countErrors o groups [] [],
    by decide, by decide, by decide⟩
  rw [reviewsLoop_reviews o prd p2s personas [] []]
  simpa using length_filterMap_toOption
    (fun p => o.reviewPRD (mkReviewArgs p (dictGetD p2s p.name "unknown") prd))
    personas

/-- C4 counterexample: one failing persona-synthesis invocation in the
streaming path is NOT recovered locally — the run aborts with a terminal
`error` event, generates no persona, and never reaches `complete`. -/
theorem c4_counterexample_persona_failure :
    countErrors (runStream personaFailOracles cat1 "p" 4 none) = 1 ∧
    (runStream personaFailOracles cat1 "p" 4 none).getLast? =
      some (Event.error "persona boom") ∧
    countPersonaGenerated (runStream personaFailOracles cat1 "p" 4 none) = 0 ∧
    countReviewGenerated (runStream personaFailOracles cat1 "p" 4 none) = 0 ∧
    ¬ Event.complete ∈ runStream personaFailOracles cat1 "p" 4 none := by
  exact ⟨by decide, by decide, by decide, by decide, by decide⟩


/-! ## C8 — stream termination protocol -/

/-- Mid-stream events are not terminal. -/
theorem Event.isMid_not_terminal {e : Event} (h : e.isMid = true) :
    e.isTerminal = false := by
  cases e <;> simp_all [Event.isMid, Event.isTerminal]

/-- `MidOnly` splits over append. -/
theorem midOnly_append {a b : List Event} :
    MidOnly (a ++ b) ↔ MidOnly a ∧ MidOnly b :=
  List.forall_mem_append

/-- Appending one mid event preserves `MidOnly`. -/
theorem midOnly_snoc {a : List Event} {e : Event} (ha : MidOnly a)
    (he : e.isMid = true) : MidOnly (a ++ [e]) := by
  rw [midOnly_append]
  refine ⟨ha, ?_⟩
  intro x hx
  rw [List.mem_singleton] at hx
  subst hx
  exact he

/-- The persona-generation inner loop appends only `persona_generated`
events, whether it succeeds or aborts. -/
theorem genPersonasForSegment_mid (o : Oracles) (sid : String) (seg : Segment) :
    ∀ (count : Nat) (st : PersonaGenState), MidOnly st.events →
      (∀ st', genPersonasForSegment o sid seg count st = .ok st' →
        MidOnly st'.events) ∧
      (∀ pre msg, genPersonasForSegment o sid seg count st = .error (pre, msg) →
        MidOnly pre)
  | 0, st, hst => by
      constructor
      · intro st' h
        injection h with h'
        subst h'
        exact hst
      · intro pre msg h
        simp [genPersonasForSegment] at h
  | Nat.succ k, st, hst => by
      cases hgen : generate_persona_variation o seg st.variation_index with
      | error msg =>
          simp only [genPersonasForSegment, hgen]
          constructor
          · intro st' h
            simp at h
          · intro pre m h
            simp only [Except.error.injEq, Prod.mk.injEq] at h
            exact h.1 ▸ hst
      | ok persona =>
          simp only [genPersonasForSegment, hgen]
          exact genPersonasForSegment_mid o sid seg k _
            (midOnly_snoc hst rfl)

/-- The persona-generation outer loop appends only progress and
`persona_generated` events, whether it succeeds or aborts. -/
theorem genPersonasLoop_mid (o : Oracles) :
    ∀ (dist : List (String × Segment × Nat)) (st : PersonaGenState),
      MidOnly st.events →
      (∀ st', genPersonasLoop o dist st = .ok st' → MidOnly st'.events) ∧
      (∀ pre msg, genPersonasLoop o dist st = .error (pre, msg) → MidOnly pre)
  | [], st, hst => by
      constructor
      · intro st' h
        injection h with h'
        subst h'
        exact hst
      · intro pre msg h
        simp [genPersonasLoop] at h
  | (sid, seg, count) :: rest, st, hst => by
      have hst2 : MidOnly ({ st with events := st.events ++
          [Event.progress "persona_generation"
            ("Generating " ++ toString count ++ " personas for "
              ++ sid ++ "...")] } : PersonaGenState).events :=
        midOnly_snoc hst rfl
      constructor
      · intro st' h
        simp only [genPersonasLoop] at h
        split at h
        · simp at h
        · rename_i st2 heq
          exact (genPersonasLoop_mid o rest st2
            ((genPersonasForSegment_mid o sid seg count _ hst2).1 st2 heq)).1 st' h
      · intro pre m h
        simp only [genPersonasLoop] at h
        split at h
        · rename_i e heq
          obtain ⟨pre0, m0⟩ := e
          simp only [Except.error.injEq, Prod.mk.injEq] at h
          exact h.1 ▸ ((genPersonasForSegment_mid o sid seg count _ hst2).2
            pre0 m0 heq)
        · rename_i st2 heq
          exact (genPersonasLoop_mid o rest st2
            ((genPersonasForSegment_mid o sid seg count _ hst2).1 st2 heq)).2
            pre m h


/-- The streaming review loop appends only `review_generated` events. -/
theorem reviewsLoop_mid (o : Oracles) (prd : String)
    (p2s : List (String × String)) :
    ∀ (l : List Persona) (revs : List Review) (evs : List Event),
      MidOnly evs → MidOnly (reviewsLoop o prd p2s l revs evs).2
  | [], revs, evs, h => by simpa [reviewsLoop] using h
  | p :: l, revs, evs, h => by
      cases hr : o.reviewPRD (mkReviewArgs p (dictGetD p2s p.name "unknown") prd) with
      | ok r =>
          simp only [reviewsLoop, hr]
          exact reviewsLoop_mid o prd p2s l _ _ (midOnly_snoc h rfl)
      | error e =>
          simp only [reviewsLoop, hr]
          exact reviewsLoop_mid o prd p2s l revs evs h

/-- The debate loop appends only progress and `debate_generated` events. -/
theorem debateLoop_mid (o : Oracles) :
    ∀ (groups : List (String × List Review)) (debates : List DebateSession)
      (evs : List Event),
      MidOnly evs → MidOnly (debateLoop o groups debates evs).2
  | [], ds, evs, h => by simpa [debateLoop] using h
  | (sid, rs) :: gs, ds, evs, h => by
      simp only [debateLoop]
      split
      · cases hd : o.facilitateDebate
          ("PRD concerns and missing features for " ++ sid) sid rs with
        | ok d =>
            simp only [hd]
            exact debateLoop_mid o gs _ _ (midOnly_snoc (midOnly_snoc h rfl) rfl)
        | error e =>
            simp only [hd]
            exact debateLoop_mid o gs ds _ (midOnly_snoc h rfl)
      · exact debateLoop_mid o gs ds evs h

/-- The debate epilogue appends only the `debate_complete` event. -/
theorem debateConcluded_mid (res : List DebateSession × List Event)
    (h : MidOnly res.2) : MidOnly (debateConcluded res).2 := by
  unfold debateConcluded
  split
  · exact h
  · exact midOnly_snoc h rfl

/-- The debate phase appends only mid-stream events. -/
theorem debatePhase_mid (o : Oracles) (reviews : List Review)
    (evs : List Event) (h : MidOnly evs) :
    MidOnly (debatePhase o reviews evs).2 := by
  unfold debatePhase
  split
  · exact debateConcluded_mid _ (debateLoop_mid o (groupBySegment reviews) [] _
      (midOnly_snoc h rfl))
  · exact midOnly_snoc h rfl

/-- The default distribution branch appends only a progress event,
whether it succeeds or aborts. -/
theorem defaultDistributionE_mid (catalog : List Segment) (n : Nat)
    (evs : List Event) (h : MidOnly evs) :
    (∀ dist evs', defaultDistributionE catalog n evs = .ok (dist, evs') →
      MidOnly evs') ∧
    (∀ pre msg, defaultDistributionE catalog n evs = .error (pre, msg) →
      MidOnly pre) := by
  constructor
  · intro dist evs' hh
    unfold defaultDistributionE at hh
    split at hh
    · simp at hh
    · simp only [Except.ok.injEq, Prod.mk.injEq] at hh
      exact hh.2 ▸ midOnly_snoc h rfl
  · intro pre msg hh
    unfold defaultDistributionE at hh
    split at hh
    · simp only [Except.error.injEq, Prod.mk.injEq] at hh
      exact hh.1 ▸ h
    · simp at hh

/-- Building the distribution appends only progress events, whether it
succeeds or aborts. -/
theorem buildDistributionE_mid (catalog : List Segment) (n : Nat)
    (cfgs : Option (List SegmentConfig)) (evs : List Event) (h : MidOnly evs) :
    (∀ dist evs', buildDistributionE catalog n cfgs evs = .ok (dist, evs') →
      MidOnly evs') ∧
    (∀ pre msg, buildDistributionE catalog n cfgs evs = .error (pre, msg) →
      MidOnly pre) := by
  cases cfgs with
  | none => exact defaultDistributionE_mid catalog n evs h
  | some l =>
      by_cases hl : l.isEmpty
      · simpa [buildDistributionE, hl] using defaultDistributionE_mid catalog n evs h
      · constructor
        · intro dist evs' hh
          simp only [buildDistributionE] at hh
          rw [if_neg hl] at hh
          simp only [Except.ok.injEq, Prod.mk.injEq] at hh
          exact hh.2 ▸ midOnly_snoc h rfl
        · intro pre msg hh
          simp only [buildDistributionE] at hh
          rw [if_neg hl] at hh
          simp at hh


/-- The post-persona progress block preserves `MidOnly`. -/
theorem postPersonaEvents_mid (st : PersonaGenState)
    (h : MidOnly st.events) : MidOnly (postPersonaEvents st) := by
  unfold postPersonaEvents
  rw [midOnly_append]
  refine ⟨h, ?_⟩
  intro e he
  simp only [List.mem_cons, List.mem_singleton, List.not_mem_nil, or_false] at he
  rcases he with rfl | rfl | rfl | rfl <;> rfl

/-- The aggregation epilogue either ends the stream with `final_result`
then `complete` after only mid events — which requires the aggregation
oracle to have answered — or aborts carrying only mid events. -/
theorem finalAggregation_shape (o : Oracles) (reviews : List Review)
    (dres : List DebateSession × List Event) (total : Nat)
    (h : MidOnly dres.2) :
    (∃ pre a b, finalAggregation o reviews dres total =
        .ok (pre ++ [Event.final_result a b, Event.complete]) ∧ MidOnly pre ∧
        ∃ ins, o.aggregateReviews reviews dres.1 total = .ok ins) ∨
    (∃ pre msg, finalAggregation o reviews dres total = .error (pre, msg) ∧
      MidOnly pre) := by
  unfold finalAggregation
  cases hagg : o.aggregateReviews reviews dres.1 total with
  | error msg =>
      right
      exact ⟨_, msg, rfl, midOnly_snoc h rfl⟩
  | ok ins =>
      left
      refine ⟨dres.2 ++ [Event.progress "aggregating"
        "Aggregating insights from all reviews..."],
        reviews.length, dres.1.length, ?_, midOnly_snoc h rfl, ins, rfl⟩
      rw [List.append_assoc]
      rfl

/-- The post-persona half of the generator body has the terminal shape. -/
theorem streamPhase2_shape (o : Oracles) (prd : String)
    (st : PersonaGenState) (hst : MidOnly st.events) :
    (∃ pre a b, streamPhase2 o prd st =
        .ok (pre ++ [Event.final_result a b, Event.complete]) ∧ MidOnly pre ∧
        ∃ rs ds t ins, o.aggregateReviews rs ds t = .ok ins) ∨
    (∃ pre msg, streamPhase2 o prd st = .error (pre, msg) ∧ MidOnly pre) := by
  have hrl : MidOnly (reviewPhaseRes o prd st).2 :=
    reviewsLoop_mid o prd st.persona_to_segment st.all_personas [] _
      (postPersonaEvents_mid st hst)
  have hdp : MidOnly (debatePhase o (reviewPhaseRes o prd st).1
      ((reviewPhaseRes o prd st).2 ++
        [Event.review_complete (reviewPhaseRes o prd st).1.length])).2 :=
    debatePhase_mid o _ _ (midOnly_snoc hrl rfl)
  rcases finalAggregation_shape o (reviewPhaseRes o prd st).1
      (debatePhase o (reviewPhaseRes o prd st).1
        ((reviewPhaseRes o prd st).2 ++
          [Event.review_complete (reviewPhaseRes o prd st).1.length]))
      st.all_personas.length hdp with
    ⟨pre, a, b, heq, hpre, ins, hagg⟩ | ⟨pre, msg, heq, hpre⟩
  · exact Or.inl ⟨pre, a, b, heq, hpre, _, _, _, ins, hagg⟩
  · exact Or.inr ⟨pre, msg, heq, hpre⟩

/-- The full generator body has the terminal shape. -/
theorem streamBody_shape (o : Oracles) (catalog : List Segment)
    (prd : String) (n : Nat) (cfgs : Option (List SegmentConfig)) :
    (∃ pre a b, streamBody o catalog prd n cfgs =
        .ok (pre ++ [Event.final_result a b, Event.complete]) ∧ MidOnly pre ∧
        ∃ rs ds t ins, o.aggregateReviews rs ds t = .ok ins) ∨
    (∃ pre msg, streamBody o catalog prd n cfgs = .error (pre, msg) ∧
      MidOnly pre) := by
  have h0 : MidOnly (initEvents n) := by
    intro e he
    simp only [initEvents, List.mem_cons, List.mem_singleton,
      List.not_mem_nil, or_false] at he
    rcases he with rfl | rfl <;> rfl
  cases hbd : buildDistributionE catalog n cfgs (initEvents n) with
  | error e =>
      obtain ⟨pre, msg⟩ := e
      right
      refine ⟨pre, msg, ?_,
        (buildDistributionE_mid catalog n cfgs _ h0).2 pre msg hbd⟩
      simp only [streamBody, hbd]
  | ok de =>
      obtain ⟨dist, evs1⟩ := de
      have hevs1 : MidOnly evs1 :=
        (buildDistributionE_mid catalog n cfgs _ h0).1 dist evs1 hbd
      cases hgen : genPersonasLoop o dist
          { all_personas := [], persona_to_segment := [],
            variation_index := 0, events := evs1 } with
      | error e =>
          obtain ⟨pre, msg⟩ := e
          right
          refine ⟨pre, msg, ?_,
            (genPersonasLoop_mid o dist _ hevs1).2 pre msg hgen⟩
          simp only [streamBody, hbd, hgen]
      | ok st =>
          have heq : streamBody o catalog prd n cfgs = streamPhase2 o prd st := by
            simp only [streamBody, hbd, hgen]
          rw [heq]
          exact streamPhase2_shape o prd st
            ((genPersonasLoop_mid o dist _ hevs1).1 st hgen)

/-- Terminal-position principle: in a stream of mid events followed by one
terminal event, the terminal event is last and is the only terminal one. -/
theorem terminal_last (pre : List Event) (t : Event)
    (hter : t.isTerminal = true) (hpre : ∀ e ∈ pre, e.isTerminal = false) :
    (pre ++ [t]).getLast? = some t ∧
    ∀ i (h : i < (pre ++ [t]).length),
      ((pre ++ [t]).get ⟨i, h⟩).isTerminal = true →
      i = (pre ++ [t]).length - 1 := by
  constructor
  · exact List.getLast?_concat pre
  · intro i h hti
    by_cases hi : i < pre.length
    · exfalso
      rw [List.get_append i hi] at hti
      rw [hpre _ (List.get_mem pre i hi)] at hti
      exact Bool.false_ne_true hti
    · have : i = pre.length := by
        simp only [List.length_append, List.length_singleton] at h
        omega
      simp [List.length_append, this]


/-- C8: every event stream produced by a streaming run ends in a `complete`
or an `error` event, and a terminal event occurs only at the last position —
after an `error` event nothing further is emitted. -/
theorem c8_stream_termination (o : Oracles) (catalog : List Segment)
    (prd : String) (n : Nat) (cfgs : Option (List SegmentConfig)) :
    ((runStream o catalog prd n cfgs).getLast? = some Event.complete ∨
      ∃ msg, (runStream o catalog prd n cfgs).getLast? =
        some (Event.error msg)) ∧
    ∀ i (h : i < (runStream o catalog prd n cfgs).length),
      ((runStream o catalog prd n cfgs).get ⟨i, h⟩).isTerminal = true →
      i = (runStream o catalog prd n cfgs).length - 1 := by
  rcases streamBody_shape o catalog prd n cfgs with
    ⟨pre, a, b, heq, hpre, -⟩ | ⟨pre, msg, heq, hpre⟩
  · have hrun : runStream o catalog prd n cfgs =
        (pre ++ [Event.final_result a b]) ++ [Event.complete] := by
      simp only [runStream, heq]
      rw [List.append_assoc]
      rfl
    have hpre' : ∀ e ∈ pre ++ [Event.final_result a b],
        e.isTerminal = false := by
      intro e he
      rcases List.mem_append.mp he with he | he
      · exact Event.isMid_not_terminal (hpre e he)
      · rw [List.mem_singleton] at he
        subst he
        rfl
    have hterm := terminal_last (pre ++ [Event.final_result a b])
      Event.complete rfl hpre'
    rw [hrun]
    exact ⟨Or.inl hterm.1, hterm.2⟩
  · have hrun : runStream o catalog prd n cfgs = pre ++ [Event.error msg] := by
      simp only [runStream, heq]
    have hpre' : ∀ e ∈ pre, e.isTerminal = false :=
      fun e he => Event.isMid_not_terminal (hpre e he)
    have hterm := terminal_last pre (Event.error msg) rfl hpre'
    rw [hrun]
    exact ⟨Or.inr ⟨msg, hterm.1⟩, hterm.2⟩

/-- C8 witness: a concrete run ends in `complete`, and its terminal event
sits at the last index (16 of 17 events). -/
theorem c8_witness :
    ((runStream reviewFailOracles cat1 "p" 4 none).getLast? =
        some Event.complete ∨
      ∃ msg, (runStream reviewFailOracles cat1 "p" 4 none).getLast? =
        some (Event.error msg)) ∧
    16 = (runStream reviewFailOracles cat1 "p" 4 none).length - 1 :=
  ⟨(c8_stream_termination reviewFailOracles cat1 "p" 4 none).1,
    (c8_stream_termination reviewFailOracles cat1 "p" 4 none).2 16
      (by decide) (by decide)⟩


/-! ## C2 — aggregation failure -/

/-- C2 counterexample: the batch `aggregation_node` catches the failing
`b.AggregateReviews` call and RETURNS normally with `final_insights = None`
instead of raising — the workflow run does not fail. -/
theorem c2_counterexample_batch_no_raise :
    aggregation_node aggFailOracles batchState0 =
      .ok { batchState0 with final_insights := none } := rfl

/-- C2 (amended): when the aggregation oracle fails on every input, the
STREAMING run surfaces the failure as a terminal `error` event — no
`complete`, no `final_result`, no substituted insight — while the BATCH
`aggregation_node` does not raise: it catches the exception and returns
the state with `final_insights = None` (its caller `run_workflow` then
returns `None` rather than raising). -/
theorem c2_aggregation_failure (o : Oracles) (catalog : List Segment)
    (prd : String) (n : Nat) (cfgs : Option (List SegmentConfig))
    (st : BatchState)
    (hfail : ∀ rs ds t, ∃ m, o.aggregateReviews rs ds t = .error m) :
    (∃ pre msg, runStream o catalog prd n cfgs = pre ++ [Event.error msg] ∧
      MidOnly pre) ∧
    Event.complete ∉ runStream o catalog prd n cfgs ∧
    (∀ a b, Event.final_result a b ∉ runStream o catalog prd n cfgs) ∧
    aggregation_node o st = .ok { st with final_insights := none } := by
  have hbatch : aggregation_node o st = .ok { st with final_insights := none } := by
    obtain ⟨m, hm⟩ := hfail st.reviews (st.debates.getD []) st.reviews.length
    simp only [aggregation_node, hm]
  rcases streamBody_shape o catalog prd n cfgs with
    ⟨pre, a, b, heq, hpre, rs, ds, t, ins, hagg⟩ | ⟨pre, msg, heq, hpre⟩
  · obtain ⟨m, hm⟩ := hfail rs ds t
    rw [hagg] at hm
    simp at hm
  · have hrun : runStream o catalog prd n cfgs = pre ++ [Event.error msg] := by
      simp only [runStream, heq]
    refine ⟨⟨pre, msg, hrun, hpre⟩, ?_, ?_, hbatch⟩
    · rw [hrun]
      intro hmem
      rcases List.mem_append.mp hmem with h | h
      · have h1 := hpre _ h
        rw [show Event.complete.isMid = false from rfl] at h1
        exact Bool.false_ne_true h1
      · rw [List.mem_singleton] at h
        simp at h
    · intro a b
      rw [hrun]
      intro hmem
      rcases List.mem_append.mp hmem with h | h
      · have h1 := hpre _ h
        rw [show (Event.final_result a b).isMid = false from rfl] at h1
        exact Bool.false_ne_true h1
      · rw [List.mem_singleton] at h
        simp at h

/-- C2 witness: a concrete run with a failing aggregation oracle ends in an
`error` event with no `complete` or `final_result`, and the batch node
returns `None` insights without raising. -/
theorem c2_witness :
    (∃ pre msg, runStream aggFailOracles cat1 "p" 4 none =
        pre ++ [Event.error msg] ∧ MidOnly pre) ∧
    Event.complete ∉ runStream aggFailOracles cat1 "p" 4 none ∧
    (∀ a b, Event.final_result a b ∉ runStream aggFailOracles cat1 "p" 4 none) ∧
    aggregation_node aggFailOracles batchState0 =
      .ok { batchState0 with final_insights := none } :=
  c2_aggregation_failure aggFailOracles cat1 "p" 4 none batchState0
    (fun _ _ _ => ⟨"agg boom", rfl⟩)


/-! ## C6 — allocation totals -/

/-- Inserting a fresh key appends the pair at the end of the dict. -/
theorem dictInsert_fresh {α : Type} (k : String) (v : α)
    (d : List (String × α)) (h : k ∉ d.map Prod.fst) :
    dictInsert k v d = d ++ [(k, v)] := by
  induction d with
  | nil => rfl
  | cons kv rest ih =>
      simp only [List.map_cons, List.mem_cons, not_or] at h
      simp only [dictInsert]
      rw [if_neg (fun hh => h.1 hh.symm), ih h.2]
      rfl

/-- The allocated total of a dict extended by one entry. -/
theorem allocTotal_append_single (d : List (String × Segment × Nat))
    (k : String) (seg : Segment) (cnt : Nat) :
    allocTotal (d ++ [(k, (seg, cnt))]) = allocTotal d + cnt := by
  simp [allocTotal]

/-- Folding constant-count insertions of segments with fresh, pairwise
distinct ids adds `length * count` to the total. -/
theorem foldl_dictInsert_total (c : Nat) :
    ∀ (ss : List Segment) (d : List (String × Segment × Nat)),
      (∀ s ∈ ss, s.segment_id ∉ d.map Prod.fst) →
      (ss.map Segment.segment_id).Nodup →
      allocTotal (ss.foldl
        (fun d seg => dictInsert seg.segment_id (seg, c) d) d) =
        allocTotal d + ss.length * c
  | [], d, hfresh, hnd => by simp
  | s :: ss, d, hfresh, hnd => by
      simp only [List.foldl_cons]
      have hf : s.segment_id ∉ d.map Prod.fst := hfresh s (by simp)
      have hkeys : (dictInsert s.segment_id (s, c) d).map Prod.fst =
          d.map Prod.fst ++ [s.segment_id] := by
        rw [dictInsert_fresh _ _ _ hf, List.map_append]
        rfl
      simp only [List.map_cons, List.nodup_cons] at hnd
      have hfresh' : ∀ s' ∈ ss,
          s'.segment_id ∉ (dictInsert s.segment_id (s, c) d).map Prod.fst := by
        intro s' hs'
        rw [hkeys]
        simp only [List.mem_append, List.mem_singleton, not_or]
        refine ⟨hfresh s' (by simp [hs']), ?_⟩
        intro hh
        exact hnd.1 (hh ▸ List.mem_map_of_mem Segment.segment_id hs')
      rw [foldl_dictInsert_total c ss _ hfresh' hnd.2,
        dictInsert_fresh _ _ _ hf, allocTotal_append_single]
      simp only [List.length_cons]
      ring

/-- A `stepDist` iteration either inserts the entry's count at its own key
(when retained) or leaves the dict unchanged (when dropped). -/
theorem stepDist_retained (catalog : List Segment)
    (d : List (String × Segment × Nat)) (c : SegmentConfig) :
    (retainedCfg catalog c = true →
      ∃ seg, stepDist catalog d c = dictInsert c.segment_id (seg, c.count) d) ∧
    (retainedCfg catalog c = false → stepDist catalog d c = d) := by
  unfold stepDist retainedCfg
  by_cases h1 : c.count > 0
  · by_cases h2 : strStartsWith c.segment_id "custom_"
    · constructor
      · intro _
        exact ⟨mkCustomSegment c, by rw [if_pos h1, if_pos h2]⟩
      · intro hf
        simp [h1, h2] at hf
    · cases h3 : catalog.find? (fun s => s.segment_id == c.segment_id) with
      | some seg =>
          constructor
          · intro _
            refine ⟨seg, ?_⟩
            rw [if_pos h1, if_neg h2]
          · intro hf
            simp [h1, h2, h3] at hf
      | none =>
          constructor
          · intro ht
            simp [h1, h2, h3] at ht
          · intro _
            rw [if_pos h1, if_neg h2]
  · constructor
    · intro ht
      simp [h1] at ht
    · intro _
      rw [if_neg h1]

/-- Folding the caller-supplied configs with pairwise distinct, fresh ids
yields the sum of the retained counts. -/
theorem buildDistribution_total (catalog : List Segment) :
    ∀ (cfgs : List SegmentConfig) (d : List (String × Segment × Nat)),
      (∀ c ∈ cfgs, c.segment_id ∉ d.map Prod.fst) →
      (cfgs.map SegmentConfig.segment_id).Nodup →
      allocTotal (cfgs.foldl (stepDist catalog) d) =
        allocTotal d +
          ((cfgs.filter (retainedCfg catalog)).map SegmentConfig.count).sum
  | [], d, hfresh, hnd => by simp
  | c :: cfgs, d, hfresh, hnd => by
      simp only [List.foldl_cons, List.filter_cons]
      simp only [List.map_cons, List.nodup_cons] at hnd
      by_cases hret : retainedCfg catalog c = true
      · obtain ⟨seg, hstep⟩ := (stepDist_retained catalog d c).1 hret
        have hf : c.segment_id ∉ d.map Prod.fst := hfresh c (by simp)
        have hkeys : (stepDist catalog d c).map Prod.fst =
            d.map Prod.fst ++ [c.segment_id] := by
          rw [hstep, dictInsert_fresh _ _ _ hf, List.map_append]
          rfl
        have hfresh' : ∀ c' ∈ cfgs,
            c'.segment_id ∉ (stepDist catalog d c).map Prod.fst := by
          intro c' hc'
          rw [hkeys]
          simp only [List.mem_append, List.mem_singleton, not_or]
          refine ⟨hfresh c' (by simp [hc']), ?_⟩
          intro hh
          exact hnd.1
            (hh ▸ List.mem_map_of_mem SegmentConfig.segment_id hc')
        rw [buildDistribution_total catalog cfgs _ hfresh' hnd.2, hstep,
          dictInsert_fresh _ _ _ hf, allocTotal_append_single, hret]
        simp only [if_true]
        simp [List.map_cons]
        omega
      · have hstep := (stepDist_retained catalog d c).2
          (Bool.not_eq_true _ ▸ eq_false_of_ne_true hret)
        have hfresh' : ∀ c' ∈ cfgs,
            c'.segment_id ∉ (stepDist catalog d c).map Prod.fst := by
          intro c' hc'
          rw [hstep]
          exact hfresh c' (by simp [hc'])
        rw [buildDistribution_total catalog cfgs _ hfresh' hnd.2, hstep]
        rw [eq_false_of_ne_true hret]
        simp

/-- C6 (amended): the default even split allocates
`num_segments * (N // num_segments) ≤ N` personas, with equality exactly
when the segment count divides N (remainder personas are silently not
generated); a caller-supplied distribution allocates the sum of the
supplied counts over retained entries (positive count, custom prefix or
catalog match) — a quantity unrelated to the requested count N. -/
theorem c6_allocation_totals (catalog : List Segment) (n : Nat)
    (cfgs : List SegmentConfig)
    (hcat : (catalog.map Segment.segment_id).Nodup)
    (hcfg : (cfgs.map SegmentConfig.segment_id).Nodup) :
    allocTotal (defaultDistribution catalog n) =
      catalog.length * (n / catalog.length) ∧
    allocTotal (defaultDistribution catalog n) ≤ n ∧
    (allocTotal (defaultDistribution catalog n) = n ↔ catalog.length ∣ n) ∧
    allocTotal (buildDistribution catalog cfgs) =
      ((cfgs.filter (retainedCfg catalog)).map SegmentConfig.count).sum := by
  have hdef : allocTotal (defaultDistribution catalog n) =
      catalog.length * (n / catalog.length) := by
    unfold defaultDistribution
    rw [foldl_dictInsert_total (n / catalog.length) catalog []
      (by intro s hs; simp) hcat]
    simp [allocTotal]
  refine ⟨hdef, ?_, ?_, ?_⟩
  · rw [hdef, Nat.mul_comm]
    exact Nat.div_mul_le_self n catalog.length
  · rw [hdef]
    constructor
    · intro h
      exact ⟨n / catalog.length, h.symm⟩
    · intro h
      exact Nat.mul_div_cancel' h
  · unfold buildDistribution
    rw [buildDistribution_total catalog cfgs [] (by intro c hc; simp) hcfg]
    simp [allocTotal]

/-- C6 counterexample: a caller-supplied distribution is NOT bounded by the
requested persona count — requesting 4 personas with one custom entry of
count 50 allocates 50 — and equality can also fail below: one unknown
non-custom entry of count 5 allocates 0. -/
theorem c6_counterexample_unbounded :
    allocTotal (buildDistribution cat1
      [{ segment_id := "custom_a", count := 50 }]) = 50 ∧
    ¬(50 ≤ 4) ∧
    allocTotal (buildDistribution cat1 [cfgGhost]) = 0 := by
  refine ⟨by decide, by decide, by decide⟩

/-- C6 witness: concrete totals for a two-segment catalog with 5 requested
personas and a mixed config list. -/
theorem c6_witness :
    allocTotal (defaultDistribution cat2 5) = cat2.length * (5 / cat2.length) ∧
    allocTotal (defaultDistribution cat2 5) ≤ 5 ∧
    (allocTotal (defaultDistribution cat2 5) = 5 ↔ cat2.length ∣ 5) ∧
    allocTotal (buildDistribution cat2 [cfgCustom, cfgFam, cfgGhost]) =
      (([cfgCustom, cfgFam, cfgGhost].filter (retainedCfg cat2)).map
        SegmentConfig.count).sum :=
  c6_allocation_totals cat2 5 [cfgCustom, cfgFam, cfgGhost]
    (by decide) (by decide)


/-! ## C7 — reviewer_segment versus the run's allocation -/

/-- C7: with an oracle echoing the `persona_segment` it is given, the
STREAMING review loop tags the review of a persona from the `families`
allocation with `families`, an id of the run's allocation — but the BATCH
`phase1_reviews_node` passes the literal `"unknown"` for every persona, so
its reviews reference no segment of the allocation. -/
theorem c7_reviewer_segment_allocation :
    ((phase1ReviewsLoop happyOracles "p" [demoPersona] []).map
      (fun r => r.reviewer_segment)) = ["unknown"] ∧
    "unknown" ∉ allocIds (defaultDistribution cat1 4) ∧
    ((reviewsLoop happyOracles "p" [("Alex", "families")]
      [demoPersona] [] []).1.map (fun r => r.reviewer_segment)) =
        ["families"] ∧
    "families" ∈ allocIds (defaultDistribution cat1 4) := by
  refine ⟨by decide, by decide, by decide, by decide⟩

/-! ## C10 — custom-prefix rule and silent drop -/

/-- C10: a caller-supplied entry is synthesized as a generic custom segment
iff its id starts with `custom_`; a non-custom id is looked up in the
catalog instead, and when absent the entry contributes nothing to the
allocation and its presence changes no event of the run. -/
theorem c10_custom_prefix_and_silent_drop (catalog : List Segment)
    (dist : List (String × Segment × Nat)) (c : SegmentConfig)
    (l1 l2 : List SegmentConfig) (o : Oracles) (prd : String) (n : Nat)
    (hpos : c.count > 0) :
    (strStartsWith c.segment_id "custom_" = true →
      stepDist catalog dist c =
        dictInsert c.segment_id (mkCustomSegment c, c.count) dist) ∧
    (strStartsWith c.segment_id "custom_" = false →
      ∀ s, catalog.find? (fun s => s.segment_id == c.segment_id) = some s →
        stepDist catalog dist c = dictInsert c.segment_id (s, c.count) dist) ∧
    (strStartsWith c.segment_id "custom_" = false →
      catalog.find? (fun s => s.segment_id == c.segment_id) = none →
      stepDist catalog dist c = dist) ∧
    (strStartsWith c.segment_id "custom_" = false →
      catalog.find? (fun s => s.segment_id == c.segment_id) = none →
      buildDistribution catalog (l1 ++ c :: l2) =
        buildDistribution catalog (l1 ++ l2)) ∧
    (strStartsWith c.segment_id "custom_" = false →
      catalog.find? (fun s => s.segment_id == c.segment_id) = none →
      l1 ++ l2 ≠ [] →
      runStream o catalog prd n (some (l1 ++ c :: l2)) =
        runStream o catalog prd n (some (l1 ++ l2))) := by
  have hdrop : strStartsWith c.segment_id "custom_" = false →
      catalog.find? (fun s => s.segment_id == c.segment_id) = none →
      ∀ d, stepDist catalog d c = d := by
    intro h1 h2 d
    unfold stepDist
    rw [if_pos hpos, if_neg (by simp [h1])]
    simp only [h2]
  have hbuild : strStartsWith c.segment_id "custom_" = false →
      catalog.find? (fun s => s.segment_id == c.segment_id) = none →
      buildDistribution catalog (l1 ++ c :: l2) =
        buildDistribution catalog (l1 ++ l2) := by
    intro h1 h2
    unfold buildDistribution
    rw [List.foldl_append, List.foldl_cons, List.foldl_append,
      hdrop h1 h2 (l1.foldl (stepDist catalog) [])]
  refine ⟨?_, ?_, fun h1 h2 => hdrop h1 h2 dist, hbuild, ?_⟩
  · intro h1
    unfold stepDist
    rw [if_pos hpos, if_pos h1]
  · intro h1 s hs
    unfold stepDist
    rw [if_pos hpos, if_neg (by simp [h1])]
    simp only [hs]
  · intro h1 h2 hne
    have hbd : buildDistributionE catalog n (some (l1 ++ c :: l2))
        (initEvents n) =
        buildDistributionE catalog n (some (l1 ++ l2)) (initEvents n) := by
      simp only [buildDistributionE]
      rw [if_neg (by simp), if_neg (fun hh => hne (List.isEmpty_iff.mp hh)),
        hbuild h1 h2]
    have hsb : streamBody o catalog prd n (some (l1 ++ c :: l2)) =
        streamBody o catalog prd n (some (l1 ++ l2)) := by
      simp only [streamBody, hbd]
    simp only [runStream, hsb]

/-- C10 witness: dropping a concrete unknown non-custom entry (`ghost`,
count 5) from a config list leaves the whole event stream unchanged. -/
theorem c10_witness :
    cfgGhost.count > 0 ∧
    strStartsWith cfgGhost.segment_id "custom_" = false ∧
    cat1.find? (fun s => s.segment_id == cfgGhost.segment_id) = none ∧
    ([cfgCustom] ++ [] : List SegmentConfig) ≠ [] ∧
    runStream happyOracles cat1 "p" 4 (some ([cfgCustom] ++ cfgGhost :: [])) =
      runStream happyOracles cat1 "p" 4 (some ([cfgCustom] ++ [])) := by
  refine ⟨by decide, by decide, by decide, by decide, ?_⟩
  exact (c10_custom_prefix_and_silent_drop cat1 [] cfgGhost [cfgCustom] []
    happyOracles "p" 4 (by decide)).2.2.2.2 (by decide) (by decide) (by decide)

end PRD
